import Mathlib

/-!
Shallow embedding of the scraper agent (`rust/agents/scraper/src/agent.rs`):
configuration validation (`from_config_filtered`), startup
(`Scraper::from_settings`) and task spawning (`Scraper::run` / `Scraper::scrape`
and the three `spawn_sync_task!`-generated builders), together with theorems
about them.

External collaborators of the agent (the `hyperlane_core` config helpers, the
base `Settings` registry, the database / provider constructors and `run_all`)
live elsewhere in the repository; they are modelled from the spec, as noted on
each definition.
-/

namespace ScraperAgent

/-- A Hyperlane domain: one blockchain, identified by a numeric id and a name. -/
structure HyperlaneDomain where
  id : Nat
  name : String
  deriving DecidableEq, Repr, Inhabited

/-- A path into the configuration tree; `cwp + "db"` appends one segment. -/
abbrev ConfigPath := List String

/-- Modelled from the spec: `ConfigParsingError` (hyperlane-core, outside this
agent's file) is an aggregate of field-level errors, each a config path paired
with a message; merging two aggregates appends their entries, and
`into_result` succeeds exactly when the aggregate is empty. -/
abbrev ConfigParsingError := List (ConfigPath × String)

/-- Modelled from the spec: the parsed base settings expose a chain registry
against which each named chain of `chainstoscrape` is resolved. -/
structure Settings where
  chains : List (String × HyperlaneDomain)
  deriving DecidableEq, Repr, Inhabited

/-- Modelled from the spec: `lookup_domain` resolves a chain name in the base
chain registry. -/
def lookup_domain (s : Settings) (name : String) : Option HyperlaneDomain :=
  (s.chains.find? (fun c => c.1 == name)).map (fun c => c.2)

instance {ε α : Type} [DecidableEq ε] [DecidableEq α] : DecidableEq (Except ε α) := fun a b =>
  match a, b with
  | Except.ok x, Except.ok y =>
    if h : x = y then isTrue (by rw [h]) else isFalse (fun hh => h (Except.ok.inj hh))
  | Except.error x, Except.error y =>
    if h : x = y then isTrue (by rw [h]) else isFalse (fun hh => h (Except.error.inj hh))
  | Except.ok _, Except.error _ => isFalse (fun hh => Except.noConfusion hh)
  | Except.error _, Except.ok _ => isFalse (fun hh => Except.noConfusion hh)

/-- Raw scraper settings, from the `decl_settings!` block: an optional database
connection string, an optional comma separated chain list, and the raw base
settings. The raw base is represented by the *result* of parsing it with
`parse_config_with_filter` (the parser itself is hyperlane-base code outside
this file), which keeps the external parser fully general. -/
structure RawScraperSettings where
  db : Option String
  chainstoscrape : Option String
  base : Except ConfigParsingError Settings
  deriving DecidableEq, Repr

/-- Parsed scraper settings, from the `decl_settings!` block. -/
structure ScraperSettings where
  base : Settings
  db : String
  chains_to_scrape : List HyperlaneDomain
  deriving DecidableEq, Repr, Inhabited

/-- Rust's `Option::ok_or_else`. -/
def ok_or (o : Option α) (m : String) : Except String α :=
  match o with
  | some a => Except.ok a
  | none => Except.error m

/-- Modelled from the spec: `take_err` (hyperlane-core) moves the error of a
result into the accumulated aggregate, tagged with the given path, yielding
`none`; a success is passed through and the aggregate is unchanged. -/
def take_err (r : Except String α) (err : ConfigParsingError) (path : ConfigPath) :
    Option α × ConfigParsingError :=
  match r with
  | Except.ok a => (some a, err)
  | Except.error m => (none, err ++ [(path, m)])

/-- Modelled from the spec: `take_config_err` (hyperlane-core) merges a failed
sub-parse's aggregate into the accumulated aggregate, yielding `none`; a
success is passed through unchanged. -/
def take_config_err (r : Except ConfigParsingError α) (err : ConfigParsingError) :
    Option α × ConfigParsingError :=
  match r with
  | Except.ok a => (some a, err)
  | Except.error e => (none, err ++ e)

/-- Modelled from the spec: `parse_config_with_filter::<Settings>` parses the
raw base settings restricted to the filter; since the raw base is represented
by its parse result, this is the projection. -/
def parse_config_with_filter (base : Except ConfigParsingError Settings)
    (_filter : List String) : Except ConfigParsingError Settings :=
  base

def dbMissingMsg : String := "Missing `db` connection string"

def ctsMissingMsg : String := "Missing `chainstoscrape` list"

def chainMissingMsg : String := "Missing configuration for a chain in `chainstoscrape`"

/-- Rust's char-pattern `str::split(',')` from
`s.split(',').map(str::to_owned).collect()`: splits at every comma, keeping
empty segments. -/
def splitCommaAux : List Char → List Char → List String
  | [], acc => [String.mk acc.reverse]
  | c :: rest, acc =>
    if c = ',' then String.mk acc.reverse :: splitCommaAux rest []
    else splitCommaAux rest (c :: acc)

/-- `s.split(',')` on a string, as a list of segments. -/
def splitComma (s : String) : List String :=
  splitCommaAux s.data []

/-- The `filter_map` over `chains_to_scrape` in `from_config_filtered`: each
name is looked up in the base registry; an unresolved name pushes one error at
path `chains.<name>` and is dropped, a resolved name contributes its domain.
The error aggregate is threaded through in iteration order. -/
def resolveChains (b : Settings) (names : List String) (cwp : ConfigPath)
    (err : ConfigParsingError) : List HyperlaneDomain × ConfigParsingError :=
  match names with
  | [] => ([], err)
  | n :: rest =>
    match lookup_domain b n with
    | some d =>
      let r := resolveChains b rest cwp err
      (d :: r.1, r.2)
    | none =>
      resolveChains b rest cwp (err ++ [(cwp ++ ["chains", n], chainMissingMsg)])

/-- `FromRawConf::from_config_filtered` for the scraper, line by line: check
the db string, check (and on absence early-return after) the chain list, parse
the base with the list as filter, resolve each named chain, then
`err.into_result()?` and build the settings. The final Rust `unwrap()`s are
modelled by `Option.getD default`, so a reached panic would surface as a
default value in the result. -/
def from_config_filtered (raw : RawScraperSettings) (cwp : ConfigPath) :
    Except ConfigParsingError ScraperSettings :=
  let p0 := take_err (ok_or raw.db dbMissingMsg) [] (cwp ++ ["db"])
  let p1 := take_err (ok_or raw.chainstoscrape ctsMissingMsg) p0.2 (cwp ++ ["chainstoscrape"])
  match p1.1 with
  | none => Except.error p1.2
  | some s =>
    let chains_to_scrape := splitComma s
    let p2 := take_config_err (parse_config_with_filter raw.base chains_to_scrape) p1.2
    let p3 :=
      match p2.1 with
      | some b => resolveChains b chains_to_scrape cwp p2.2
      | none => ([], p2.2)
    if p3.2.isEmpty then
      Except.ok ⟨p2.1.getD default, p0.1.getD default, p3.1⟩
    else
      Except.error p3.2

/-- The error aggregate carried by a validation outcome. -/
def errorsOf (r : Except ConfigParsingError ScraperSettings) : ConfigParsingError :=
  match r with
  | Except.ok _ => []
  | Except.error e => e

/-- Errors contributed by the db-presence check. -/
def dbErrs (raw : RawScraperSettings) (cwp : ConfigPath) : ConfigParsingError :=
  match raw.db with
  | none => [(cwp ++ ["db"], dbMissingMsg)]
  | some _ => []

/-- Errors contributed by the chain-list-presence check. -/
def ctsErrs (raw : RawScraperSettings) (cwp : ConfigPath) : ConfigParsingError :=
  match raw.chainstoscrape with
  | none => [(cwp ++ ["chainstoscrape"], ctsMissingMsg)]
  | some _ => []

/-- Errors contributed by base-settings parsing; empty when the chain list is
absent, because the code early-returns before parsing the base. -/
def baseErrs (raw : RawScraperSettings) : ConfigParsingError :=
  match raw.chainstoscrape with
  | none => []
  | some _ =>
    match raw.base with
    | Except.error e => e
    | Except.ok _ => []

/-- Errors contributed by chain-name resolution: one entry per unresolved
name, in list order; empty when the chain list is absent or the base failed to
parse. -/
def chainErrs (raw : RawScraperSettings) (cwp : ConfigPath) : ConfigParsingError :=
  match raw.chainstoscrape, raw.base with
  | some s, Except.ok b =>
    (splitComma s).filterMap (fun n =>
      if (lookup_domain b n).isSome then none
      else some (cwp ++ ["chains", n], chainMissingMsg))
  | _, _ => []

/-- Per-chain index parameters(from `hyperlane_base::chains::IndexSettings`,
outside this file): start block and chunk size. -/
structure IndexSettings where
  from_block : Nat
  chunk_size : Nat
  deriving DecidableEq, Repr, Inhabited

/-- Modelled from the spec: a handle to the connected event store
(`ScraperDb::connect`). -/
structure ScraperDb where
  dsn : String
  deriving DecidableEq, Repr, Inhabited

/-- Modelled from the spec: a constructed chain provider handle. -/
structure Provider where
  tag : Nat
  deriving DecidableEq, Repr, Inhabited

/-- Modelled from the spec: the per-chain store handle built by
`HyperlaneSqlDb::new` (crate::chain_scraper, outside this file). -/
structure HyperlaneSqlDb where
  tag : Nat
  deriving DecidableEq, Repr, Inhabited

/-- The per-chain setup from the base settings: the mailbox address
(`chain_setup.addresses.mailbox`) and the index settings. -/
structure ChainSetup where
  mailbox : Nat
  index : IndexSettings
  deriving DecidableEq, Repr, Inhabited

/-- One chain's scraping context, from `struct ChainScraper`. -/
structure ChainScraper where
  index_settings : IndexSettings
  db : HyperlaneSqlDb
  domain : HyperlaneDomain
  deriving DecidableEq, Repr

/-- The agent, from `struct Scraper`; the core, metrics and sync-metrics
fields are opaque external values and carried as units. The `scrapers`
`HashMap<u32, ChainScraper>` is carried as an association list with unique
keys (see `insertMap`). -/
structure Scraper where
  core : Unit
  contract_sync_metrics : Unit
  metrics : Unit
  scrapers : List (Nat × ChainScraper)
  deriving Repr

/-- Modelled from the spec: the fallible external collaborators used by
`Scraper::from_settings` — store connection, per-chain setup lookup,
provider construction and per-chain store-handle construction. -/
structure Env where
  connect : String → Except String ScraperDb
  chain_setup : HyperlaneDomain → Option ChainSetup
  build_provider : HyperlaneDomain → Except String Provider
  sql_db_new : ScraperDb → Nat → HyperlaneDomain → Provider → IndexSettings →
    Except String HyperlaneSqlDb

/-- `HashMap::insert`: replaces the value at an existing key, otherwise adds
the binding. -/
def insertMap (m : List (Nat × ChainScraper)) (k : Nat) (v : ChainScraper) :
    List (Nat × ChainScraper) :=
  match m with
  | [] => [(k, v)]
  | (k1, v1) :: rest =>
    if k1 = k then (k, v) :: rest else (k1, v1) :: insertMap rest k v

/-- `HashMap::get`. -/
def lookupMap (m : List (Nat × ChainScraper)) (k : Nat) : Option ChainScraper :=
  match m with
  | [] => none
  | (k1, v1) :: rest => if k1 = k then some v1 else lookupMap rest k

/-- `HashMap::keys`. -/
def keysOf (m : List (Nat × ChainScraper)) : List Nat :=
  m.map (fun kv => kv.1)

/-- The body of the `for domain in settings.chains_to_scrape` loop as one
value: the `ChainScraper` inserted for a domain, `none` when any of its
constructions fails or panics. -/
def builtChainScraper (env : Env) (db : ScraperDb) (d : HyperlaneDomain) :
    Option ChainScraper :=
  match env.chain_setup d with
  | none => none
  | some cs =>
    match env.build_provider d with
    | Except.error _ => none
    | Except.ok p =>
      match env.sql_db_new db cs.mailbox d p cs.index with
      | Except.error _ => none
      | Except.ok h => some ⟨cs.index, h, d⟩

/-- The `for domain in settings.chains_to_scrape` loop of
`Scraper::from_settings`: per chain, `chain_setup(..).expect(..)` (a missing
setup panics — modelled as `none`), `build_provider(..)?` and
`HyperlaneSqlDb::new(..)?` (an error aborts the whole startup), then
`scrapers.insert(domain.id(), ..)`. -/
def fromSettingsLoop (env : Env) (db : ScraperDb) :
    List HyperlaneDomain → List (Nat × ChainScraper) →
    Option (Except String (List (Nat × ChainScraper)))
  | [], m => some (Except.ok m)
  | d :: rest, m =>
    match env.chain_setup d with
    | none => none
    | some cs =>
      match env.build_provider d with
      | Except.error e => some (Except.error e)
      | Except.ok p =>
        match env.sql_db_new db cs.mailbox d p cs.index with
        | Except.error e => some (Except.error e)
        | Except.ok h => fromSettingsLoop env db rest (insertMap m d.id ⟨cs.index, h, d⟩)

/-- `Scraper::from_settings`: connect to the store (`?`), then build one
`ChainScraper` per configured chain; `none` models a panic, a `some error`
models early return with that error. -/
def from_settings (env : Env) (settings : ScraperSettings) :
    Option (Except String Scraper) :=
  match env.connect settings.db with
  | Except.error e => some (Except.error e)
  | Except.ok db =>
    match fromSettingsLoop env db settings.chains_to_scrape [] with
    | none => none
    | some (Except.error e) => some (Except.error e)
    | some (Except.ok m) => some (Except.ok ⟨(), (), (), m⟩)

/-- The cursor-construction method a sync task is built with: the second
`spawn_sync_task!` argument. -/
inductive CursorKind where
  | forward_message_sync_cursor
  | rate_limited_cursor
  deriving DecidableEq, Repr

/-- One spawned long-running sync task, reduced to its observable tags: the
chain name and event label of its tracing span, and the cursor variant it was
built with. -/
structure SpawnedTask where
  chain : String
  event : String
  cursor : CursorKind
  deriving DecidableEq, Repr

/-- Modelled from the spec: `run_all` (hyperlane-base) aggregates a list of
handles into one handle supervising all their underlying tasks; a handle is
identified with the list of tasks it supervises. -/
def run_all (tasks : List (List SpawnedTask)) : List SpawnedTask :=
  tasks.flatten

/-- `spawn_sync_task!(build_message_indexer, forward_message_sync_cursor,
"message_dispatch")`: spawns one task tagged with the chain name and the
`message_dispatch` label, built on the forward cursor. -/
def build_message_indexer (domain : HyperlaneDomain) (_metrics : Unit)
    (_contract_sync_metrics : Unit) (_db : HyperlaneSqlDb)
    (_index_settings : IndexSettings) : List SpawnedTask :=
  [⟨domain.name, "message_dispatch", CursorKind.forward_message_sync_cursor⟩]

/-- `spawn_sync_task!(build_delivery_indexer, rate_limited_cursor,
"message_delivery")`. -/
def build_delivery_indexer (domain : HyperlaneDomain) (_metrics : Unit)
    (_contract_sync_metrics : Unit) (_db : HyperlaneSqlDb)
    (_index_settings : IndexSettings) : List SpawnedTask :=
  [⟨domain.name, "message_delivery", CursorKind.rate_limited_cursor⟩]

/-- `spawn_sync_task!(build_interchain_gas_payment_indexer,
rate_limited_cursor, "gas_payment")`. -/
def build_interchain_gas_payment_indexer (domain : HyperlaneDomain) (_metrics : Unit)
    (_contract_sync_metrics : Unit) (_db : HyperlaneSqlDb)
    (_index_settings : IndexSettings) : List SpawnedTask :=
  [⟨domain.name, "gas_payment", CursorKind.rate_limited_cursor⟩]

/-- `Scraper::scrape`: look the domain up in the map (`get(..).unwrap()` — a
missing key panics, modelled as `none`), then aggregate the three
per-event-kind tasks with `run_all`. -/
def Scraper.scrape (s : Scraper) (domain_id : Nat) : Option (List SpawnedTask) :=
  match lookupMap s.scrapers domain_id with
  | none => none
  | some scraper =>
    some (run_all
      [build_message_indexer scraper.domain () () scraper.db scraper.index_settings,
        build_delivery_indexer scraper.domain () () scraper.db scraper.index_settings,
        build_interchain_gas_payment_indexer scraper.domain () () scraper.db
          scraper.index_settings])

/-- The `for domain in self.scrapers.keys()` loop of `Scraper::run`,
collecting each `scrape` result. -/
def runTasks (s : Scraper) : List Nat → Option (List (List SpawnedTask))
  | [] => some []
  | k :: ks =>
    match s.scrape k, runTasks s ks with
    | some h, some hs => some (h :: hs)
    | _, _ => none

/-- `Scraper::run`: scrape every key of the map and aggregate with
`run_all`. -/
def Scraper.run (s : Scraper) : Option (List SpawnedTask) :=
  (runTasks s (keysOf s.scrapers)).map run_all

/-- The three tasks `Scraper::scrape` spawns for one chain context. -/
def chainTasks (cs : ChainScraper) : List SpawnedTask :=
  [⟨cs.domain.name, "message_dispatch", CursorKind.forward_message_sync_cursor⟩,
    ⟨cs.domain.name, "message_delivery", CursorKind.rate_limited_cursor⟩,
    ⟨cs.domain.name, "gas_payment", CursorKind.rate_limited_cursor⟩]

/-- A chain for which provider or per-chain store construction fails, given
the connected store handle. -/
def chainFails (env : Env) (db : ScraperDb) (d : HyperlaneDomain) : Prop :=
  (∃ e, env.build_provider d = Except.error e)
  ∨ ∃ cs p, env.chain_setup d = some cs ∧ env.build_provider d = Except.ok p
      ∧ ∃ e, env.sql_db_new db cs.mailbox d p cs.index = Except.error e

theorem resolveChains_fst (b : Settings) (names : List String) (cwp : ConfigPath)
    (err : ConfigParsingError) :
    (resolveChains b names cwp err).1 = names.filterMap (lookup_domain b) := by
  induction names generalizing err with
  | nil => rfl
  | cons n rest ih =>
    simp only [resolveChains, List.filterMap_cons]
    cases h : lookup_domain b n <;> simp [h, ih]

theorem resolveChains_snd (b : Settings) (names : List String) (cwp : ConfigPath)
    (err : ConfigParsingError) :
    (resolveChains b names cwp err).2 =
      err ++ names.filterMap (fun n =>
        if (lookup_domain b n).isSome then none
        else some (cwp ++ ["chains", n], chainMissingMsg)) := by
  induction names generalizing err with
  | nil => simp [resolveChains]
  | cons n rest ih =>
    simp only [resolveChains, List.filterMap_cons]
    cases h : lookup_domain b n with
    | none => simp [h, ih, List.append_assoc]
    | some d => simp [h, ih]

/-- Master decomposition: the aggregate returned by `from_config_filtered` is
exactly the concatenation of the four checks' contributions, and the outcome
is a success exactly when that concatenation is empty. -/
theorem from_config_decomp (raw : RawScraperSettings) (cwp : ConfigPath) :
    errorsOf (from_config_filtered raw cwp)
        = dbErrs raw cwp ++ ctsErrs raw cwp ++ baseErrs raw ++ chainErrs raw cwp
    ∧ (from_config_filtered raw cwp).isOk
        = (dbErrs raw cwp ++ ctsErrs raw cwp ++ baseErrs raw ++ chainErrs raw cwp).isEmpty := by
  obtain ⟨odb, octs, obase⟩ := raw
  cases octs with
  | none =>
    cases odb <;>
      simp [from_config_filtered, take_err, ok_or, errorsOf, dbErrs, ctsErrs, baseErrs,
        chainErrs, Except.isOk, Except.toBool]
  | some s =>
    cases obase with
    | error e =>
      cases odb <;>
        simp [from_config_filtered, take_err, take_config_err, parse_config_with_filter,
          ok_or, errorsOf, dbErrs, ctsErrs, baseErrs, chainErrs, Except.isOk, Except.toBool] <;>
        cases e <;> simp [List.isEmpty]
    | ok b =>
      cases odb with
      | none =>
        simp only [from_config_filtered, take_err, take_config_err,
          parse_config_with_filter, ok_or]
        simp only [resolveChains_snd]
        simp [errorsOf, dbErrs, ctsErrs, baseErrs, chainErrs, Except.isOk, Except.toBool,
          List.isEmpty]
      | some d =>
        simp only [from_config_filtered, take_err, take_config_err,
          parse_config_with_filter, ok_or]
        simp only [resolveChains_snd]
        cases hE : (splitComma s).filterMap (fun n =>
            if (lookup_domain b n).isSome then none
            else some (cwp ++ ["chains", n], chainMissingMsg)) with
        | nil =>
          simp [hE, errorsOf, dbErrs, ctsErrs, baseErrs, chainErrs, Except.isOk,
            Except.toBool, List.isEmpty]
        | cons x xs =>
          simp [hE, errorsOf, dbErrs, ctsErrs, baseErrs, chainErrs, Except.isOk,
            Except.toBool, List.isEmpty]

/-- C1 counterexample: the claim says every required check is evaluated for
every raw configuration and the aggregate holds one entry per violated check.
At a configuration with the db present, the chain list absent, and a base that
fails to parse, `from_config_filtered` early-returns with only the
list-presence error: the base-parse violation is absent from the aggregate. -/
theorem validation_skips_base_check_when_chain_list_missing :
    from_config_filtered
        ⟨some "postgres", none, Except.error [(["rpcurls"], "invalid")]⟩ []
      = Except.error [((["chainstoscrape"] : ConfigPath), ctsMissingMsg)]
    ∧ ((["rpcurls"], "invalid") : ConfigPath × String) ∉
        errorsOf (from_config_filtered
          ⟨some "postgres", none, Except.error [(["rpcurls"], "invalid")]⟩ []) := by
  exact ⟨by decide, by decide⟩

/-- C1 (amended): when the chains-to-scrape list is present, every check (db
presence, base parsing, resolution of each named chain) is evaluated and the
aggregate holds exactly the concatenation of their per-violation entries; when
the list is absent, the function returns the db-presence and list-presence
errors without evaluating base parsing or chain resolution (both of which
depend on the list). In both cases a settings object is produced exactly when
the aggregate is empty. -/
theorem validation_error_accumulation (raw : RawScraperSettings) (cwp : ConfigPath) :
    errorsOf (from_config_filtered raw cwp)
        = dbErrs raw cwp ++ ctsErrs raw cwp ++ baseErrs raw ++ chainErrs raw cwp
    ∧ (from_config_filtered raw cwp).isOk
        = (dbErrs raw cwp ++ ctsErrs raw cwp ++ baseErrs raw ++ chainErrs raw cwp).isEmpty :=
  from_config_decomp raw cwp

/-- C2: with the db present and the base parsing cleanly, a chain list whose
split contains exactly one unresolved name among otherwise-valid names yields
exactly one error, at path `chains.<name>`; the resolution pass still maps all
valid names to their domains, and no settings object is constructed. -/
theorem single_unresolved_chain_reports_one_error
    (raw : RawScraperSettings) (cwp : ConfigPath) (d : String) (b : Settings)
    (s : String) (pre post : List String) (n : String)
    (hdb : raw.db = some d) (hbase : raw.base = Except.ok b)
    (hcts : raw.chainstoscrape = some s)
    (hsplit : splitComma s = pre ++ n :: post)
    (hn : lookup_domain b n = none)
    (hpre : ∀ m ∈ pre, (lookup_domain b m).isSome)
    (hpost : ∀ m ∈ post, (lookup_domain b m).isSome) :
    from_config_filtered raw cwp
        = Except.error [(cwp ++ ["chains", n], chainMissingMsg)]
    ∧ (resolveChains b (splitComma s) cwp []).1
        = (pre ++ post).filterMap (lookup_domain b)
    ∧ ∀ out, from_config_filtered raw cwp ≠ Except.ok out := by
  obtain ⟨odb, octs, obase⟩ := raw
  simp only at hdb hbase hcts
  subst hdb hbase hcts
  have hfpre : pre.filterMap (fun nm =>
      if (lookup_domain b nm).isSome then none
      else some (cwp ++ ["chains", nm], chainMissingMsg)) = [] := by
    rw [List.filterMap_eq_nil_iff]
    intro m hm
    simp [hpre m hm]
  have hfpost : post.filterMap (fun nm =>
      if (lookup_domain b nm).isSome then none
      else some (cwp ++ ["chains", nm], chainMissingMsg)) = [] := by
    rw [List.filterMap_eq_nil_iff]
    intro m hm
    simp [hpost m hm]
  have h1 : from_config_filtered ⟨some d, some s, Except.ok b⟩ cwp
      = Except.error [(cwp ++ ["chains", n], chainMissingMsg)] := by
    simp only [from_config_filtered, take_err, take_config_err,
      parse_config_with_filter, ok_or]
    simp only [resolveChains_snd, hsplit, List.filterMap_append, List.filterMap_cons,
      hfpre, hfpost, hn]
    simp
  refine ⟨h1, ?_, ?_⟩
  · rw [resolveChains_fst, hsplit]
    simp [List.filterMap_append, List.filterMap_cons, hn]
  · intro out hout
    rw [h1] at hout
    exact Except.noConfusion hout

/-- C2 witness: a registry knowing only `ethereum` and the list
`ethereum,foo` produce exactly the single error `chains.foo`. -/
theorem single_unresolved_chain_reports_one_error_witness :
    from_config_filtered
        ⟨some "pg", some "ethereum,foo",
          Except.ok ⟨[("ethereum", ⟨1, "ethereum"⟩)]⟩⟩ []
      = Except.error [((["chains", "foo"] : ConfigPath), chainMissingMsg)] := by
  have h := single_unresolved_chain_reports_one_error
    ⟨some "pg", some "ethereum,foo", Except.ok ⟨[("ethereum", ⟨1, "ethereum"⟩)]⟩⟩
    [] "pg" ⟨[("ethereum", ⟨1, "ethereum"⟩)]⟩ "ethereum,foo" ["ethereum"] [] "foo"
    rfl rfl rfl (by decide) (by decide) (by decide) (by decide)
  simpa using h.1

/-- C3: with the db connection string absent, the aggregate is the db error
(at path `db`) followed by exactly the entries produced for the same
configuration with a db present — the remaining checks run independently of
the db failure. Provided the (external) base parse reports its errors below
its own field paths and not at `db`, the aggregate holds exactly one entry at
the db path. -/
theorem missing_db_reports_one_error_and_continues
    (raw : RawScraperSettings) (cwp : ConfigPath) (d : String)
    (hdb : raw.db = none)
    (hbase : ∀ pe ∈ baseErrs raw, pe.1 ≠ cwp ++ ["db"]) :
    errorsOf (from_config_filtered raw cwp)
        = (cwp ++ ["db"], dbMissingMsg) ::
            errorsOf (from_config_filtered ⟨some d, raw.chainstoscrape, raw.base⟩ cwp)
    ∧ (errorsOf (from_config_filtered raw cwp)).countP
        (fun pe => decide (pe.1 = cwp ++ ["db"])) = 1 := by
  obtain ⟨odb, octs, obase⟩ := raw
  simp only at hdb hbase
  subst hdb
  have hd1 := (from_config_decomp ⟨none, octs, obase⟩ cwp).1
  have hd2 := (from_config_decomp ⟨some d, octs, obase⟩ cwp).1
  have hdbe : dbErrs ⟨none, octs, obase⟩ cwp = [(cwp ++ ["db"], dbMissingMsg)] := rfl
  have hdbe2 : dbErrs ⟨some d, octs, obase⟩ cwp = [] := rfl
  have hsame : ctsErrs ⟨none, octs, obase⟩ cwp = ctsErrs ⟨some d, octs, obase⟩ cwp := rfl
  have hsameb : baseErrs ⟨none, octs, obase⟩ = baseErrs ⟨some d, octs, obase⟩ := rfl
  have hsamec : chainErrs ⟨none, octs, obase⟩ cwp = chainErrs ⟨some d, octs, obase⟩ cwp := rfl
  constructor
  · rw [hd1, hd2, hdbe, hdbe2, hsame, hsameb, hsamec]
    simp
  · rw [hd1, hdbe]
    simp only [List.countP_append]
    have hc1 : List.countP (fun pe => decide (pe.1 = cwp ++ ["db"]))
        [(cwp ++ ["db"], dbMissingMsg)] = 1 := by simp [List.countP_cons]
    have hc2 : List.countP (fun pe => decide (pe.1 = cwp ++ ["db"]))
        (ctsErrs ⟨none, octs, obase⟩ cwp) = 0 := by
      rw [List.countP_eq_zero]
      intro pe hpe
      cases octs with
      | none =>
        simp only [ctsErrs, List.mem_singleton] at hpe
        subst hpe
        simp
      | some s => simp [ctsErrs] at hpe
    have hc3 : List.countP (fun pe => decide (pe.1 = cwp ++ ["db"]))
        (baseErrs ⟨none, octs, obase⟩) = 0 := by
      rw [List.countP_eq_zero]
      intro pe hpe
      simpa using hbase pe hpe
    have hc4 : List.countP (fun pe => decide (pe.1 = cwp ++ ["db"]))
        (chainErrs ⟨none, octs, obase⟩ cwp) = 0 := by
      rw [List.countP_eq_zero]
      intro pe hpe
      cases octs with
      | none => simp [chainErrs] at hpe
      | some s =>
        cases obase with
        | error e => simp [chainErrs] at hpe
        | ok b =>
          simp only [chainErrs, List.mem_filterMap] at hpe
          obtain ⟨nm, _, hnm⟩ := hpe
          by_cases hs : (lookup_domain b nm).isSome <;> simp [hs] at hnm
          subst hnm
          simp
    rw [hc1, hc2, hc3, hc4]

/-- C3 witness: at a configuration missing only the db string, the aggregate
is the single db error followed by nothing. -/
theorem missing_db_reports_one_error_and_continues_witness :
    errorsOf (from_config_filtered
        ⟨none, some "ethereum", Except.ok ⟨[("ethereum", ⟨1, "ethereum"⟩)]⟩⟩ [])
      = ((([] : ConfigPath) ++ ["db"], dbMissingMsg)) ::
          errorsOf (from_config_filtered
            ⟨some "pg", some "ethereum", Except.ok ⟨[("ethereum", ⟨1, "ethereum"⟩)]⟩⟩ [])
    ∧ (errorsOf (from_config_filtered
          ⟨none, some "ethereum", Except.ok ⟨[("ethereum", ⟨1, "ethereum"⟩)]⟩⟩ [])).countP
        (fun pe => decide (pe.1 = ([] : ConfigPath) ++ ["db"])) = 1 :=
  missing_db_reports_one_error_and_continues
    ⟨none, some "ethereum", Except.ok ⟨[("ethereum", ⟨1, "ethereum"⟩)]⟩⟩ [] "pg"
    rfl (by decide)

/-- C8: on the success path the final `unwrap()`s cannot panic: whenever
validation returns a settings object (the accumulated aggregate was empty),
the raw db value and the parsed base were necessarily present, and the
returned object carries exactly them. The hypothesis records that a failed
base parse reports at least one error, as the external parser does. -/
theorem success_implies_unwraps_safe
    (raw : RawScraperSettings) (cwp : ConfigPath) (out : ScraperSettings)
    (hne : ∀ e, raw.base = Except.error e → e ≠ [])
    (h : from_config_filtered raw cwp = Except.ok out) :
    raw.db = some out.db ∧ raw.base = Except.ok out.base := by
  have hdec := from_config_decomp raw cwp
  rw [h] at hdec
  have hempty : dbErrs raw cwp ++ ctsErrs raw cwp ++ baseErrs raw ++ chainErrs raw cwp
      = [] := by
    have := hdec.2
    simp only [Except.isOk, Except.toBool] at this
    exact (List.isEmpty_iff).mp (by rw [← this])
  rw [List.append_eq_nil, List.append_eq_nil, List.append_eq_nil] at hempty
  obtain ⟨⟨⟨hdbe, hctse⟩, hbasee⟩, hchaine⟩ := hempty
  obtain ⟨odb, octs, obase⟩ := raw
  cases odb with
  | none => simp [dbErrs] at hdbe
  | some d =>
  cases octs with
  | none => simp [ctsErrs] at hctse
  | some s =>
  cases obase with
  | error e =>
    exact absurd (by simpa [baseErrs] using hbasee) (hne e rfl)
  | ok b =>
  have hcf : (splitComma s).filterMap (fun nm =>
      if (lookup_domain b nm).isSome then none
      else some (cwp ++ ["chains", nm], chainMissingMsg)) = [] := by
    simpa [chainErrs] using hchaine
  simp only [from_config_filtered, take_err, take_config_err,
    parse_config_with_filter, ok_or] at h
  simp only [resolveChains_snd, hcf] at h
  simp only [List.append_nil, List.isEmpty_nil, if_true] at h
  obtain rfl : (⟨b, d, (resolveChains b (splitComma s) cwp []).1⟩ : ScraperSettings)
      = out := by
    simpa using h
  exact ⟨rfl, rfl⟩

/-- C8 witness: a fully valid configuration produces a settings object whose
db and base are the raw values. -/
theorem success_implies_unwraps_safe_witness :
    (some "pg" : Option String) = some "pg"
    ∧ (Except.ok ⟨[("ethereum", ⟨1, "ethereum"⟩)]⟩ :
        Except ConfigParsingError Settings) = Except.ok ⟨[("ethereum", ⟨1, "ethereum"⟩)]⟩ := by
  have h := success_implies_unwraps_safe
    ⟨some "pg", some "ethereum", Except.ok ⟨[("ethereum", ⟨1, "ethereum"⟩)]⟩⟩ []
    ⟨⟨[("ethereum", ⟨1, "ethereum"⟩)]⟩, "pg", [⟨1, "ethereum"⟩]⟩
    (fun e he => Except.noConfusion he) (by decide)
  exact h

theorem lookupMap_insertMap_self (m : List (Nat × ChainScraper)) (k : Nat)
    (v : ChainScraper) : lookupMap (insertMap m k v) k = some v := by
  induction m with
  | nil => simp [insertMap, lookupMap]
  | cons kv rest ih =>
    obtain ⟨k1, v1⟩ := kv
    by_cases h : k1 = k <;> simp [insertMap, lookupMap, h, ih]

theorem lookupMap_insertMap_ne (m : List (Nat × ChainScraper)) (k k1 : Nat)
    (v : ChainScraper) (h : k1 ≠ k) :
    lookupMap (insertMap m k v) k1 = lookupMap m k1 := by
  induction m with
  | nil => simp [insertMap, lookupMap, Ne.symm h]
  | cons kv rest ih =>
    obtain ⟨k2, v2⟩ := kv
    by_cases h2 : k2 = k
    · subst h2
      simp [insertMap, lookupMap, Ne.symm h, h]
    · by_cases h3 : k2 = k1 <;> simp [insertMap, lookupMap, h2, h3, ih, h, Ne.symm h]

theorem mem_keysOf_insertMap (m : List (Nat × ChainScraper)) (k a : Nat)
    (v : ChainScraper) :
    a ∈ keysOf (insertMap m k v) ↔ a = k ∨ a ∈ keysOf m := by
  induction m with
  | nil => simp [insertMap, keysOf]
  | cons kv rest ih =>
    obtain ⟨k1, v1⟩ := kv
    by_cases h : k1 = k
    · subst h
      simp [insertMap, keysOf]
    · simp [insertMap, keysOf, h] at ih ⊢
      tauto

theorem keysOf_insertMap_nodup (m : List (Nat × ChainScraper)) (k : Nat)
    (v : ChainScraper) (h : (keysOf m).Nodup) :
    (keysOf (insertMap m k v)).Nodup := by
  induction m with
  | nil => simp [insertMap, keysOf]
  | cons kv rest ih =>
    obtain ⟨k1, v1⟩ := kv
    simp only [keysOf, List.map_cons, List.nodup_cons] at h
    by_cases hk : k1 = k
    · subst hk
      simpa [insertMap, keysOf, List.nodup_cons] using h
    · simp only [insertMap, hk, if_false, keysOf, List.map_cons, List.nodup_cons]
      refine ⟨?_, ih h.2⟩
      rw [show (insertMap rest k v).map (fun kv => kv.1) = keysOf (insertMap rest k v) from rfl,
        mem_keysOf_insertMap]
      push_neg
      exact ⟨hk, h.1⟩

theorem mem_keysOf_lookupMap (m : List (Nat × ChainScraper)) (k : Nat)
    (h : k ∈ keysOf m) : (lookupMap m k).isSome := by
  induction m with
  | nil => simp [keysOf] at h
  | cons kv rest ih =>
    obtain ⟨k1, v1⟩ := kv
    by_cases hk : k1 = k
    · simp [lookupMap, hk]
    · simp only [keysOf, List.map_cons, List.mem_cons] at h
      rcases h with h | h
      · exact absurd h.symm hk
      · simpa [lookupMap, hk] using ih h

theorem fromSettingsLoop_ok_lookup (env : Env) (db : ScraperDb)
    (chains : List HyperlaneDomain) (m m2 : List (Nat × ChainScraper))
    (h : fromSettingsLoop env db chains m = some (Except.ok m2)) (i : Nat) :
    lookupMap m2 i =
      match (chains.filter (fun d => d.id == i)).getLast? with
      | some d => builtChainScraper env db d
      | none => lookupMap m i := by
  induction chains generalizing m with
  | nil =>
    simp only [fromSettingsLoop, Option.some.injEq, Except.ok.injEq] at h
    subst h
    simp
  | cons d rest ih =>
    simp only [fromSettingsLoop] at h
    cases hcs : env.chain_setup d with
    | none => simp [hcs] at h
    | some cs =>
    simp only [hcs] at h
    cases hp : env.build_provider d with
    | error e => simp [hp] at h
    | ok p =>
    simp only [hp] at h
    cases hs : env.sql_db_new db cs.mailbox d p cs.index with
    | error e => simp [hs] at h
    | ok hdl =>
    simp only [hs] at h
    have ihm := ih (insertMap m d.id ⟨cs.index, hdl, d⟩) h
    have hbuilt : builtChainScraper env db d = some ⟨cs.index, hdl, d⟩ := by
      simp [builtChainScraper, hcs, hp, hs]
    by_cases hid : d.id = i
    · simp only [List.filter_cons, hid, beq_self_eq_true, if_true]
      cases hfr : rest.filter (fun d1 => d1.id == i) with
      | nil =>
        rw [hfr] at ihm
        simp only [List.getLast?_singleton]
        rw [ihm]
        rw [← hid, lookupMap_insertMap_self]
        exact hbuilt.symm
      | cons b l =>
        rw [hfr] at ihm
        rw [List.getLast?_cons_cons]
        exact ihm
    · have hbeq : (d.id == i) = false := by simpa using hid
      simp only [List.filter_cons, hbeq, Bool.false_eq_true, if_false]
      cases hfr : rest.filter (fun d1 => d1.id == i) with
      | nil =>
        rw [hfr] at ihm
        rw [ihm]
        exact lookupMap_insertMap_ne m d.id i ⟨cs.index, hdl, d⟩ (Ne.symm hid)
      | cons b l =>
        rw [hfr] at ihm
        exact ihm

theorem fromSettingsLoop_ok_keys (env : Env) (db : ScraperDb)
    (chains : List HyperlaneDomain) (m m2 : List (Nat × ChainScraper))
    (h : fromSettingsLoop env db chains m = some (Except.ok m2)) (i : Nat) :
    i ∈ keysOf m2 ↔ i ∈ keysOf m ∨ i ∈ chains.map (fun d => d.id) := by
  induction chains generalizing m with
  | nil =>
    simp only [fromSettingsLoop, Option.some.injEq, Except.ok.injEq] at h
    subst h
    simp
  | cons d rest ih =>
    simp only [fromSettingsLoop] at h
    cases hcs : env.chain_setup d with
    | none => simp [hcs] at h
    | some cs =>
    simp only [hcs] at h
    cases hp : env.build_provider d with
    | error e => simp [hp] at h
    | ok p =>
    simp only [hp] at h
    cases hs : env.sql_db_new db cs.mailbox d p cs.index with
    | error e => simp [hs] at h
    | ok hdl =>
    simp only [hs] at h
    have ihm := ih (insertMap m d.id ⟨cs.index, hdl, d⟩) h
    rw [ihm, mem_keysOf_insertMap]
    simp only [List.map_cons, List.mem_cons]
    tauto

theorem fromSettingsLoop_ok_nodup (env : Env) (db : ScraperDb)
    (chains : List HyperlaneDomain) (m m2 : List (Nat × ChainScraper))
    (hm : (keysOf m).Nodup)
    (h : fromSettingsLoop env db chains m = some (Except.ok m2)) :
    (keysOf m2).Nodup := by
  induction chains generalizing m with
  | nil =>
    simp only [fromSettingsLoop, Option.some.injEq, Except.ok.injEq] at h
    subst h
    exact hm
  | cons d rest ih =>
    simp only [fromSettingsLoop] at h
    cases hcs : env.chain_setup d with
    | none => simp [hcs] at h
    | some cs =>
    simp only [hcs] at h
    cases hp : env.build_provider d with
    | error e => simp [hp] at h
    | ok p =>
    simp only [hp] at h
    cases hs : env.sql_db_new db cs.mailbox d p cs.index with
    | error e => simp [hs] at h
    | ok hdl =>
    simp only [hs] at h
    exact ih (insertMap m d.id ⟨cs.index, hdl, d⟩)
      (keysOf_insertMap_nodup m d.id ⟨cs.index, hdl, d⟩ hm) h

theorem fromSettingsLoop_fails (env : Env) (db : ScraperDb)
    (chains : List HyperlaneDomain) (m : List (Nat × ChainScraper))
    (hsetup : ∀ d ∈ chains, (env.chain_setup d).isSome)
    (hfail : ∃ d ∈ chains, chainFails env db d) :
    ∃ e, fromSettingsLoop env db chains m = some (Except.error e) := by
  induction chains generalizing m with
  | nil => simp at hfail
  | cons d rest ih =>
    have hds : (env.chain_setup d).isSome := hsetup d (by simp)
    obtain ⟨cs, hcs⟩ := Option.isSome_iff_exists.mp hds
    cases hp : env.build_provider d with
    | error e =>
      refine ⟨e, ?_⟩
      simp [fromSettingsLoop, hcs, hp]
    | ok p =>
    cases hs : env.sql_db_new db cs.mailbox d p cs.index with
    | error e =>
      refine ⟨e, ?_⟩
      simp [fromSettingsLoop, hcs, hp, hs]
    | ok hdl =>
    have hrest : ∃ d1 ∈ rest, chainFails env db d1 := by
      obtain ⟨d1, hd1, hf⟩ := hfail
      rcases List.mem_cons.mp hd1 with rfl | hmem
      · exfalso
        rcases hf with ⟨e, he⟩ | ⟨cs1, p1, hcs1, hp1, e, he⟩
        · rw [hp] at he; exact Except.noConfusion he
        · rw [hcs] at hcs1
          obtain rfl := Option.some.inj hcs1
          rw [hp] at hp1
          obtain rfl := Except.ok.inj hp1
          rw [hs] at he
          exact Except.noConfusion he
      · exact ⟨d1, hmem, hf⟩
    obtain ⟨e, he⟩ := ih (insertMap m d.id ⟨cs.index, hdl, d⟩)
      (fun d1 hd1 => hsetup d1 (by simp [hd1])) hrest
    refine ⟨e, ?_⟩
    have hstep : fromSettingsLoop env db (d :: rest) m
        = fromSettingsLoop env db rest (insertMap m d.id ⟨cs.index, hdl, d⟩) := by
      simp [fromSettingsLoop, hcs, hp, hs]
    rw [hstep]
    exact he

theorem from_settings_ok_elim (env : Env) (st : ScraperSettings) (sc : Scraper)
    (h : from_settings env st = some (Except.ok sc)) :
    ∃ db m, env.connect st.db = Except.ok db
      ∧ fromSettingsLoop env db st.chains_to_scrape [] = some (Except.ok m)
      ∧ sc = ⟨(), (), (), m⟩ := by
  simp only [from_settings] at h
  cases hc : env.connect st.db with
  | error e => simp [hc] at h
  | ok db =>
  simp only [hc] at h
  cases hl : fromSettingsLoop env db st.chains_to_scrape [] with
  | none => simp [hl] at h
  | some r =>
  simp only [hl] at h
  cases r with
  | error e => simp at h
  | ok m =>
  refine ⟨db, m, rfl, hl, ?_⟩
  simp only [Option.some.injEq, Except.ok.injEq] at h
  exact h.symm

theorem scrape_of_lookup (s : Scraper) (k : Nat) (v : ChainScraper)
    (h : lookupMap s.scrapers k = some v) :
    s.scrape k = some (chainTasks v) := by
  simp [Scraper.scrape, h, run_all, build_message_indexer, build_delivery_indexer,
    build_interchain_gas_payment_indexer, chainTasks]

theorem runTasks_congr (s1 s2 : Scraper) (ks : List Nat)
    (h : ∀ k ∈ ks, s1.scrape k = s2.scrape k) :
    runTasks s1 ks = runTasks s2 ks := by
  induction ks with
  | nil => rfl
  | cons k ks ih =>
    simp only [runTasks]
    rw [h k (by simp), ih (fun k1 hk1 => h k1 (by simp [hk1]))]

theorem run_eq_of_nodup (u1 u2 u3 : Unit) (m : List (Nat × ChainScraper))
    (h : (keysOf m).Nodup) :
    Scraper.run ⟨u1, u2, u3, m⟩
      = some (run_all (m.map (fun kv => chainTasks kv.2))) := by
  suffices hsuf : runTasks ⟨u1, u2, u3, m⟩ (keysOf m)
      = some (m.map (fun kv => chainTasks kv.2)) by
    simp [Scraper.run, hsuf]
  induction m with
  | nil => rfl
  | cons kv rest ih =>
    obtain ⟨k, v⟩ := kv
    simp only [keysOf, List.map_cons] at h ⊢
    rw [List.nodup_cons] at h
    have hscr : Scraper.scrape ⟨u1, u2, u3, (k, v) :: rest⟩ k = some (chainTasks v) :=
      scrape_of_lookup _ k v (by simp [lookupMap])
    have hcong : runTasks ⟨u1, u2, u3, (k, v) :: rest⟩ (keysOf rest)
        = runTasks ⟨u1, u2, u3, rest⟩ (keysOf rest) := by
      refine runTasks_congr _ _ _ (fun k1 hk1 => ?_)
      have hne : k ≠ k1 := fun he => h.1 (he ▸ hk1)
      simp [Scraper.scrape, lookupMap, hne]
    simp only [keysOf] at ih
    simp only [runTasks, hscr, keysOf] at hcong ⊢
    rw [hcong, ih h.2]

theorem length_flatten_chainTasks (m : List (Nat × ChainScraper)) :
    (run_all (m.map (fun kv => chainTasks kv.2))).length = 3 * m.length := by
  induction m with
  | nil => rfl
  | cons kv rest ih =>
    simp only [run_all, List.map_cons, List.flatten_cons, List.length_append,
      List.length_cons] at ih ⊢
    rw [ih]
    simp [chainTasks]
    ring

/-- C4: a `Scraper` built by `from_settings` spawns through `run` exactly the
three tagged tasks (dispatch, delivery, gas payment, each carrying the chain
name and event label) of every entry of its scrapers map — 3N tasks for N map
entries — aggregated into the single handle `run` returns. -/
theorem run_spawns_three_tagged_tasks_per_chain
    (env : Env) (st : ScraperSettings) (sc : Scraper) (tasks : List SpawnedTask)
    (hsc : from_settings env st = some (Except.ok sc))
    (hrun : sc.run = some tasks) :
    tasks = run_all (sc.scrapers.map (fun kv => chainTasks kv.2))
    ∧ tasks.length = 3 * sc.scrapers.length := by
  obtain ⟨db, m, hc, hl, rfl⟩ := from_settings_ok_elim env st sc hsc
  have hnd : (keysOf m).Nodup :=
    fromSettingsLoop_ok_nodup env db _ [] m (by simp [keysOf]) hl
  have hrun2 := run_eq_of_nodup () () () m hnd
  rw [hrun2] at hrun
  obtain rfl := Option.some.inj hrun
  exact ⟨rfl, length_flatten_chainTasks m⟩

/-- C4 witness: one configured chain yields exactly its three tagged tasks. -/
theorem run_spawns_three_tagged_tasks_per_chain_witness :
    ([⟨"ethereum", "message_dispatch", CursorKind.forward_message_sync_cursor⟩,
      ⟨"ethereum", "message_delivery", CursorKind.rate_limited_cursor⟩,
      ⟨"ethereum", "gas_payment", CursorKind.rate_limited_cursor⟩] : List SpawnedTask).length
      = 3 * (⟨(), (), (), [(1, ⟨⟨0, 100⟩, ⟨7⟩, ⟨1, "ethereum"⟩⟩)]⟩ : Scraper).scrapers.length :=
  (run_spawns_three_tagged_tasks_per_chain
    ⟨fun dsn => Except.ok ⟨dsn⟩, fun _ => some ⟨0, ⟨0, 100⟩⟩, fun _ => Except.ok ⟨0⟩,
      fun _ _ _ _ _ => Except.ok ⟨7⟩⟩
    ⟨⟨[]⟩, "pg", [⟨1, "ethereum"⟩]⟩
    ⟨(), (), (), [(1, ⟨⟨0, 100⟩, ⟨7⟩, ⟨1, "ethereum"⟩⟩)]⟩
    [⟨"ethereum", "message_dispatch", CursorKind.forward_message_sync_cursor⟩,
      ⟨"ethereum", "message_delivery", CursorKind.rate_limited_cursor⟩,
      ⟨"ethereum", "gas_payment", CursorKind.rate_limited_cursor⟩]
    rfl rfl).2

/-- C5: cursor strategy is fixed per event kind: for every chain the
message-dispatch task is built with the forward cursor, while the
delivery and gas-payment tasks are built with the rate-limited cursor. -/
theorem cursor_variant_fixed_per_event_kind (d : HyperlaneDomain) (mt ct : Unit)
    (db : HyperlaneSqlDb) (idx : IndexSettings) :
    build_message_indexer d mt ct db idx
        = [⟨d.name, "message_dispatch", CursorKind.forward_message_sync_cursor⟩]
    ∧ build_delivery_indexer d mt ct db idx
        = [⟨d.name, "message_delivery", CursorKind.rate_limited_cursor⟩]
    ∧ build_interchain_gas_payment_indexer d mt ct db idx
        = [⟨d.name, "gas_payment", CursorKind.rate_limited_cursor⟩] :=
  ⟨rfl, rfl, rfl⟩

/-- C6: startup fails fast and completely: a failed store connection is
returned as the startup error; when the store connects but any configured
chain's provider or per-chain store handle fails, startup returns an error;
and on success every configured chain is present in the scrapers map — no
subset-only startup. (Per-chain setups exist for validated settings.) -/
theorem from_settings_fails_fast_completely
    (env : Env) (st : ScraperSettings)
    (hsetup : ∀ d ∈ st.chains_to_scrape, (env.chain_setup d).isSome) :
    (∀ e, env.connect st.db = Except.error e →
        from_settings env st = some (Except.error e))
    ∧ (∀ db, env.connect st.db = Except.ok db →
        (∃ d ∈ st.chains_to_scrape, chainFails env db d) →
        ∃ e, from_settings env st = some (Except.error e))
    ∧ (∀ sc, from_settings env st = some (Except.ok sc) →
        ∀ d ∈ st.chains_to_scrape, d.id ∈ keysOf sc.scrapers) := by
  refine ⟨?_, ?_, ?_⟩
  · intro e he
    simp [from_settings, he]
  · intro db hdb hfail
    obtain ⟨e, he⟩ := fromSettingsLoop_fails env db st.chains_to_scrape [] hsetup hfail
    exact ⟨e, by simp [from_settings, hdb, he]⟩
  · intro sc hsc d hd
    obtain ⟨db, m, hc, hl, rfl⟩ := from_settings_ok_elim env st sc hsc
    show d.id ∈ keysOf m
    rw [fromSettingsLoop_ok_keys env db st.chains_to_scrape [] m hl d.id]
    exact Or.inr (List.mem_map_of_mem _ hd)

/-- C6 witness: a fully healthy environment with one configured chain starts
up with that chain present in the map. -/
theorem from_settings_fails_fast_completely_witness :
    (1 : Nat) ∈ keysOf (⟨(), (), (),
        [(1, ⟨⟨0, 100⟩, ⟨7⟩, ⟨1, "ethereum"⟩⟩)]⟩ : Scraper).scrapers :=
  (from_settings_fails_fast_completely
    ⟨fun dsn => Except.ok ⟨dsn⟩, fun _ => some ⟨0, ⟨0, 100⟩⟩, fun _ => Except.ok ⟨0⟩,
      fun _ _ _ _ _ => Except.ok ⟨7⟩⟩
    ⟨⟨[]⟩, "pg", [⟨1, "ethereum"⟩]⟩ (by decide)).2.2
    ⟨(), (), (), [(1, ⟨⟨0, 100⟩, ⟨7⟩, ⟨1, "ethereum"⟩⟩)]⟩ rfl ⟨1, "ethereum"⟩ (by decide)

/-- C9: the scrapers map is keyed by numeric domain id: the entry stored for
an id is the one built from the *last* configured chain with that id, the map
has one entry per distinct id, and `run` spawns 3 tasks per distinct id — not
3 per configured list entry. -/
theorem scrapers_keyed_by_domain_id_last_insert_wins
    (env : Env) (st : ScraperSettings) (db : ScraperDb) (sc : Scraper)
    (hdb : env.connect st.db = Except.ok db)
    (hsc : from_settings env st = some (Except.ok sc)) :
    (∀ i, lookupMap sc.scrapers i
        = ((st.chains_to_scrape.filter (fun d => d.id == i)).getLast?).bind
            (builtChainScraper env db))
    ∧ sc.scrapers.length = (st.chains_to_scrape.map (fun d => d.id)).dedup.length
    ∧ (∀ tasks, sc.run = some tasks →
        tasks.length = 3 * (st.chains_to_scrape.map (fun d => d.id)).dedup.length) := by
  obtain ⟨db2, m, hc, hl, rfl⟩ := from_settings_ok_elim env st sc hsc
  rw [hdb] at hc
  obtain rfl := Except.ok.inj hc
  have hnd : (keysOf m).Nodup :=
    fromSettingsLoop_ok_nodup env db _ [] m (by simp [keysOf]) hl
  have hlen : m.length = (st.chains_to_scrape.map (fun d => d.id)).dedup.length := by
    have hmem : ∀ i, i ∈ keysOf m ↔ i ∈ st.chains_to_scrape.map (fun d => d.id) := by
      intro i
      rw [fromSettingsLoop_ok_keys env db st.chains_to_scrape [] m hl i]
      simp [keysOf]
    have hfin : (keysOf m).toFinset
        = (st.chains_to_scrape.map (fun d => d.id)).toFinset := by
      ext a
      simp only [List.mem_toFinset]
      exact hmem a
    have h1 : m.length = (keysOf m).length := (List.length_map m _).symm
    rw [h1, ← List.toFinset_card_of_nodup hnd, hfin, List.card_toFinset]
  refine ⟨?_, hlen, ?_⟩
  · intro i
    show lookupMap m i = _
    rw [fromSettingsLoop_ok_lookup env db st.chains_to_scrape [] m hl i]
    cases hg : (st.chains_to_scrape.filter (fun d => d.id == i)).getLast? <;>
      simp [lookupMap]
  · intro tasks htasks
    have hrun2 := run_eq_of_nodup () () () m hnd
    rw [hrun2] at htasks
    obtain rfl := Option.some.inj htasks
    rw [length_flatten_chainTasks m, hlen]

/-- C9 witness: two configured chains sharing domain id 1 leave a single map
entry — the map size equals the number of distinct ids, not the list
length. -/
theorem scrapers_keyed_by_domain_id_last_insert_wins_witness :
    (⟨(), (), (), [(1, ⟨⟨0, 100⟩, ⟨7⟩, ⟨1, "eth2"⟩⟩)]⟩ : Scraper).scrapers.length
      = (([⟨1, "ethereum"⟩, ⟨1, "eth2"⟩] : List HyperlaneDomain).map
          (fun d => d.id)).dedup.length :=
  (scrapers_keyed_by_domain_id_last_insert_wins
    ⟨fun dsn => Except.ok ⟨dsn⟩, fun _ => some ⟨0, ⟨0, 100⟩⟩, fun _ => Except.ok ⟨0⟩,
      fun _ _ _ _ _ => Except.ok ⟨7⟩⟩
    ⟨⟨[]⟩, "pg", [⟨1, "ethereum"⟩, ⟨1, "eth2"⟩]⟩ ⟨"pg"⟩
    ⟨(), (), (), [(1, ⟨⟨0, 100⟩, ⟨7⟩, ⟨1, "eth2"⟩⟩)]⟩ rfl rfl).2.1

/-- C10: `run` invokes `scrape` only on keys of the scrapers map, and for any
key of the map the `get(..).unwrap()` in `scrape` succeeds; hence neither
`scrape` (under that calling pattern) nor `run` reaches the panic branch. -/
theorem scrape_unwrap_never_panics_under_run (s : Scraper) (k : Nat)
    (hk : k ∈ keysOf s.scrapers) :
    (s.scrape k).isSome ∧ (s.run).isSome := by
  constructor
  · obtain ⟨v, hv⟩ :=
      Option.isSome_iff_exists.mp (mem_keysOf_lookupMap s.scrapers k hk)
    simp [scrape_of_lookup s k v hv]
  · have hall : ∀ k1 ∈ keysOf s.scrapers, (s.scrape k1).isSome := by
      intro k1 hk1
      obtain ⟨v, hv⟩ :=
        Option.isSome_iff_exists.mp (mem_keysOf_lookupMap s.scrapers k1 hk1)
      simp [scrape_of_lookup s k1 v hv]
    have hrt : ∀ ks : List Nat, (∀ k1 ∈ ks, (s.scrape k1).isSome) →
        (runTasks s ks).isSome := by
      intro ks
      induction ks with
      | nil => intro _; simp [runTasks]
      | cons a as ih =>
        intro hh
        obtain ⟨h1, hv1⟩ := Option.isSome_iff_exists.mp (hh a (by simp))
        obtain ⟨hs2, hv2⟩ :=
          Option.isSome_iff_exists.mp (ih (fun k1 hk1 => hh k1 (by simp [hk1])))
        simp [runTasks, hv1, hv2]
    obtain ⟨r, hr⟩ :=
      Option.isSome_iff_exists.mp (hrt (keysOf s.scrapers) hall)
    simp [Scraper.run, hr]

/-- C10 witness: for a one-entry map, both the scrape of its key and the full
run succeed. -/
theorem scrape_unwrap_never_panics_under_run_witness :
    ((⟨(), (), (), [(1, ⟨⟨0, 100⟩, ⟨7⟩, ⟨1, "ethereum"⟩⟩)]⟩ : Scraper).scrape 1).isSome
    ∧ ((⟨(), (), (), [(1, ⟨⟨0, 100⟩, ⟨7⟩, ⟨1, "ethereum"⟩⟩)]⟩ : Scraper).run).isSome :=
  scrape_unwrap_never_panics_under_run _ 1 (by decide)

end ScraperAgent
